import Mathlib

/-!
# todolist: the task table, the history table and the six request handlers

A shallow embedding of `src/main.go`.  The SQLite database behind the global
handle `db` is an explicit value of type `DB`; every handler is a function from
the database before the request to the response and the database after it.

What the handlers read from their environment is collected in `Env`:
the reading of `time.Now()` and, for every SQL statement the handler issues,
whether the engine reports an error for it.  The engine is free to fail any
statement (disk full, id sequence exhausted, ...), so these flags are inputs
and the handlers branch on them exactly where the source tests `err != nil`.

A timestamp is a `Time`: a point on the time line together with the UTC offset
of the local zone, which is what the driver writes into a `DATETIME` column
(as text) and reads back.  Ids are integers (`int` in Go, 64 bits wide;
`INTEGER PRIMARY KEY AUTOINCREMENT` in the schema).
-/

namespace TodoList

/-! ## Time -/

/-- A `time.Time` as the handlers get it from `time.Now()` and as the driver
stores it: the point on the time line and the UTC offset of the local zone in
force at that point, both counted in the same unit.  The driver writes the
value as the text `2006-01-02 15:04:05.999999999-07:00`: the local date and
time, then the offset.  A numeral stands for a time in UTC. -/
structure Time where
  instant : Int
  offset : Int
deriving DecidableEq, Repr

instance (n : Nat) : OfNat Time n := ⟨⟨n, 0⟩⟩

/-- Chronological order: `a ≤ b` when `a` is not later than `b`. -/
instance : Preorder Time := Preorder.lift Time.instant

instance (a b : Time) : Decidable (a ≤ b) :=
  inferInstanceAs (Decidable (a.instant ≤ b.instant))

/-- The local date and time that the stored text of a timestamp begins with. -/
def Time.wall (t : Time) : Int := t.instant + t.offset

/-- Order of two offset suffixes as texts: `+hh:mm` sorts before `-hh:mm`
(the character `+` precedes `-`), two suffixes of the same sign sort by their
digits, that is by the size of the offset. -/
def offsetTextLE (a b : Int) : Prop :=
  if 0 ≤ a then (if 0 ≤ b then a ≤ b else True) else (if 0 ≤ b then False else b ≤ a)

instance (a b : Int) : Decidable (offsetTextLE a b) := by
  unfold offsetTextLE; exact inferInstance

/-- Order of two timestamps as the engine compares them in `ORDER BY`: as
texts, byte by byte.  For four-digit years this is the order of the local date
and time and, when these agree, the order of the offset suffixes. -/
def Time.textLE (a b : Time) : Prop :=
  a.wall < b.wall ∨ (a.wall = b.wall ∧ offsetTextLE a.offset b.offset)

instance (a b : Time) : Decidable (a.textLE b) := by
  unfold Time.textLE; exact inferInstance

/-! ## Data model -/

/-- A row of the `tasks` table, the Go struct `Task`. -/
structure Task where
  ID : Int
  Text : String
  Completed : Bool
  CreatedAt : Time
  UpdatedAt : Time
deriving DecidableEq, Repr

/-- A row of the `history` table, the Go struct `History`. -/
structure History where
  ID : Int
  TaskID : Int
  TaskText : String
  Action : String
  CreatedAt : Time
deriving DecidableEq, Repr

/-- The database file: both tables in rowid order, and for each table the
AUTOINCREMENT sequence (the largest rowid ever handed out for it). -/
structure DB where
  tasks : List Task
  taskSeq : Int
  history : List History
  historySeq : Int
deriving DecidableEq, Repr

/-- The database right after `initDB` has created both tables in a fresh file. -/
def initDB : DB := ⟨[], 0, [], 0⟩

/-- What one request reads from outside the database.
`now` is the value of `time.Now()`.
`queryFails` says that the request's SELECT (the `Query`/`QueryRow` call or a
`Scan` of its rows) returns an error, `execFails` that its statement on the
tasks table (`INSERT`, `UPDATE` or `DELETE`) does, and `historyFails k` that
the `k`-th call of `addHistory` made by the request does. -/
structure Env where
  now : Time
  queryFails : Bool
  execFails : Bool
  historyFails : Nat → Bool

/-- The JSON document of a response.  The text of an error is kept where the
source spells it out and is `none` where it is `err.Error()` of a library. -/
inductive Body where
  | error (msg : Option String)
  | tasks (rows : List Task)
  | taskAndHistory (task : Task) (history : History)
  | history (history : History)
  | historyEntries (entries : List History)
  | historyRows (rows : List History)
deriving DecidableEq, Repr

/-- An HTTP response: status code and JSON body. -/
structure Response where
  status : Nat
  body : Body
deriving DecidableEq, Repr

/-! ## The SQL statements -/

/-- The rows of `SELECT ... FROM tasks ORDER BY created_at DESC`: by the stored
text of `created_at`, greatest first, rows of equal text in rowid order. -/
def selectTasksNewestFirst (rows : List Task) : List Task :=
  rows.insertionSort (fun a b => b.CreatedAt.textLE a.CreatedAt)

/-- The effect of `INSERT INTO tasks(text, completed, created_at, updated_at)`:
the new row gets the next value of the AUTOINCREMENT sequence. -/
def insertTask (db : DB) (text : String) (completed : Bool) (createdAt updatedAt : Time) : DB :=
  { db with
    tasks := db.tasks ++ [⟨db.taskSeq + 1, text, completed, createdAt, updatedAt⟩]
    taskSeq := db.taskSeq + 1 }

/-- The row of `SELECT ... FROM tasks WHERE id = ?`, if there is one. -/
def selectTaskById (rows : List Task) (id : Int) : Option Task :=
  rows.find? (fun t => decide (t.ID = id))

/-- The effect of `UPDATE tasks SET completed = ?, updated_at = ? WHERE id = ?`. -/
def updateTask (rows : List Task) (completed : Bool) (updatedAt : Time) (id : Int) : List Task :=
  rows.map (fun t => if t.ID = id then { t with Completed := completed, UpdatedAt := updatedAt } else t)

/-- The effect of `DELETE FROM tasks WHERE id = ?`. -/
def deleteTaskById (rows : List Task) (id : Int) : List Task :=
  rows.filter (fun t => !decide (t.ID = id))

/-- The rows of `SELECT ... FROM tasks WHERE id IN (?, ..., ?)`. -/
def selectTasksIn (rows : List Task) (ids : List Int) : List Task :=
  rows.filter (fun t => decide (t.ID ∈ ids))

/-- The effect of `DELETE FROM tasks WHERE id IN (?, ..., ?)`. -/
def deleteTasksIn (rows : List Task) (ids : List Int) : List Task :=
  rows.filter (fun t => !decide (t.ID ∈ ids))

/-- The rows of `SELECT ... FROM history ORDER BY created_at DESC LIMIT 50`: by
the stored text of `created_at`, greatest first, the first 50 of them. -/
def selectHistoryRecent (rows : List History) : List History :=
  (rows.insertionSort (fun a b => b.CreatedAt.textLE a.CreatedAt)).take 50

/-- The engine's limit on the number of `?` parameters of one statement
(`SQLITE_MAX_VARIABLE_NUMBER` of the SQLite that the driver bundles); a
statement with more parameters is refused with an error. -/
def maxVariableNumber : Nat := 32766

/-- The least value of a Go `int` (64 bits wide). -/
def minInt : Int := -9223372036854775808

/-- The greatest value of a Go `int` (64 bits wide). -/
def maxInt : Int := 9223372036854775807

/-! ## Request decoding -/

/-- The outcome of `c.ShouldBindJSON(&req)` for the request struct of `addTask`,
whose field `Text` is tagged `binding:"required"`.  The argument is the
`text` member of the body, `none` when the body has none (or is not JSON);
a string field passes `required` when it is not the empty string. -/
def bindText (text : Option String) : Option String :=
  match text with
  | none => none
  | some s => if s = "" then none else some s

/-- The outcome of `c.ShouldBindJSON(&req)` for the request struct of
`clearCompleted`, whose field `IDs []int` is tagged `binding:"required"`.  The
argument is the `ids` member of the body, an array of integers as the body
writes them, `none` when the body has none (or is not JSON, or the member is
not an array of integers).  Decoding fails when an integer does not fit an
`int`; a slice field passes `required` when it is not nil, so the empty array
passes here and is caught by the handler's own length test. -/
def bindIDs (ids : Option (List Int)) : Option (List Int) :=
  match ids with
  | none => none
  | some l => if l.all (fun i => decide (minInt ≤ i ∧ i ≤ maxInt)) then some l else none

/-! ## Handlers -/

/-- Handler `getTasks`. -/
def getTasks (db : DB) (e : Env) : Response × DB :=
  if e.queryFails then (⟨500, .error none⟩, db)
  else (⟨200, .tasks (selectTasksNewestFirst db.tasks)⟩, db)

/-- Function `addHistory`: the id of the inserted row and `false`, or `0` and
`true` when the INSERT returns an error. -/
def addHistory (db : DB) (fails : Bool) (taskID : Int) (taskText action : String)
    (createdAt : Time) : (Int × Bool) × DB :=
  if fails then ((0, true), db)
  else
    ((db.historySeq + 1, false),
      { db with
        history := db.history ++ [⟨db.historySeq + 1, taskID, taskText, action, createdAt⟩]
        historySeq := db.historySeq + 1 })

/-- Handler `addTask`. -/
def addTask (db : DB) (e : Env) (text : Option String) : Response × DB :=
  match bindText text with
  | none => (⟨400, .error none⟩, db)
  | some reqText =>
    let now := e.now
    if e.execFails then (⟨500, .error none⟩, db)
    else
      let db1 := insertTask db reqText false now now
      let taskID := db1.taskSeq
      let task : Task := ⟨taskID, reqText, false, now, now⟩
      let r := addHistory db1 (e.historyFails 0) taskID reqText "add" now
      let history : History := ⟨r.1.1, taskID, reqText, "add", now⟩
      (⟨201, .taskAndHistory task history⟩, r.2)

/-- Handler `toggleTask`.  `id` is the integer that the engine converts the
route parameter to when it compares it with the integer column `id`; a
parameter that the engine converts to no integer matches no row, like an
integer that no task has. -/
def toggleTask (db : DB) (e : Env) (id : Int) : Response × DB :=
  match (if e.queryFails then none else selectTaskById db.tasks id) with
  | none => (⟨404, .error (some "Task not found")⟩, db)
  | some task =>
    let newStatus := !task.Completed
    let now := e.now
    if e.execFails then (⟨500, .error none⟩, db)
    else
      let db1 := { db with tasks := updateTask db.tasks newStatus now id }
      let task1 : Task := { task with Completed := newStatus, UpdatedAt := now }
      let action := if !newStatus then "uncomplete" else "complete"
      let r := addHistory db1 (e.historyFails 0) task1.ID task1.Text action now
      let history : History := ⟨r.1.1, task1.ID, task1.Text, action, now⟩
      (⟨200, .taskAndHistory task1 history⟩, r.2)

/-- Handler `deleteTask`.  `id` is the integer that the engine converts the
route parameter to when it compares it with the integer column `id`; a
parameter that the engine converts to no integer matches no row, like an
integer that no task has. -/
def deleteTask (db : DB) (e : Env) (id : Int) : Response × DB :=
  match (if e.queryFails then none else selectTaskById db.tasks id) with
  | none => (⟨404, .error (some "Task not found")⟩, db)
  | some task =>
    if e.execFails then (⟨500, .error none⟩, db)
    else
      let db1 := { db with tasks := deleteTaskById db.tasks id }
      let now := e.now
      let r := addHistory db1 (e.historyFails 0) task.ID task.Text "delete" now
      let history : History := ⟨r.1.1, task.ID, task.Text, "delete", now⟩
      (⟨200, .history history⟩, r.2)

/-- The last loop of `clearCompleted`: one `addHistory` call per selected row,
`k` counting the calls made so far. -/
def addDeleteHistory (e : Env) (now : Time) : List Task → Nat → DB → List History × DB
  | [], _, db => ([], db)
  | task :: rest, k, db =>
    let r := addHistory db (e.historyFails k) task.ID task.Text "delete" now
    let out := addDeleteHistory e now rest (k + 1) r.2
    (⟨r.1.1, task.ID, task.Text, "delete", now⟩ :: out.1, out.2)

/-- Handler `clearCompleted`.  Both statements carry one `?` parameter per
element of `req.IDs`, so the SELECT returns an error when the engine reports
one or when the list is longer than the engine's parameter limit. -/
def clearCompleted (db : DB) (e : Env) (ids : Option (List Int)) : Response × DB :=
  match bindIDs ids with
  | none => (⟨400, .error none⟩, db)
  | some reqIDs =>
    if reqIDs.length = 0 then (⟨400, .error (some "No task IDs provided")⟩, db)
    else if e.queryFails || decide (maxVariableNumber < reqIDs.length) then
      (⟨500, .error none⟩, db)
    else
      let tasks := selectTasksIn db.tasks reqIDs
      if e.execFails then (⟨500, .error none⟩, db)
      else
        let db1 := { db with tasks := deleteTasksIn db.tasks reqIDs }
        let now := e.now
        let out := addDeleteHistory e now tasks 0 db1
        (⟨200, .historyEntries out.1⟩, out.2)

/-- Handler `getHistory`. -/
def getHistory (db : DB) (e : Env) : Response × DB :=
  if e.queryFails then (⟨500, .error none⟩, db)
  else (⟨200, .historyRows (selectHistoryRecent db.history)⟩, db)

/-! ## Requests and runs -/

/-- The routes registered on the `/api` group in `main`. -/
inductive Request where
  | getTasks
  | addTask (text : Option String)
  | toggleTask (id : Int)
  | deleteTask (id : Int)
  | clearCompleted (ids : Option (List Int))
  | getHistory
deriving DecidableEq, Repr

/-- Dispatch of a request to its handler, as the route table of `main` does. -/
def handle (db : DB) (e : Env) : Request → Response × DB
  | .getTasks => getTasks db e
  | .addTask text => addTask db e text
  | .toggleTask id => toggleTask db e id
  | .deleteTask id => deleteTask db e id
  | .clearCompleted ids => clearCompleted db e ids
  | .getHistory => getHistory db e

/-- The database after serving a sequence of requests one after the other. -/
def run (db : DB) : List (Env × Request) → DB
  | [] => db
  | (e, r) :: rest => run (handle db e r).2 rest

/-! ## Well-formed databases -/

/-- The ids of the stored tasks, in rowid order. -/
def taskIds (db : DB) : List Int := db.tasks.map (fun t => t.ID)

/-- What the schema guarantees of the tasks table: `id` is the primary key and
the rows are kept in rowid order (ids strictly increasing), and no row has an
id beyond the AUTOINCREMENT sequence. -/
def DB.WF (db : DB) : Prop :=
  (taskIds db).Pairwise (fun a b => a < b) ∧ ∀ i ∈ taskIds db, i ≤ db.taskSeq

instance (db : DB) : Decidable db.WF := by
  unfold DB.WF; exact inferInstance

/-- The id lists that get `clearCompleted` past decoding, its length test and
the engine's parameter limit: not empty, every id an `int`, and no more ids
than one statement may have parameters. -/
def AcceptedIDs (ids : List Int) : Prop :=
  ids ≠ [] ∧ (∀ i ∈ ids, minInt ≤ i ∧ i ≤ maxInt) ∧ ids.length ≤ maxVariableNumber

instance (ids : List Int) : Decidable (AcceptedIDs ids) := by
  unfold AcceptedIDs; exact inferInstance

/-- No statement of the request fails. -/
def Env.NoFault (e : Env) : Prop :=
  e.queryFails = false ∧ e.execFails = false ∧ ∀ k, e.historyFails k = false

/-- An environment in which the engine executes every statement. -/
def Env.healthy (now : Time) : Env := ⟨now, false, false, fun _ => false⟩

/-! ## Sample inputs -/

/-- A database with two tasks, as left by adding "buy milk" at time 10, adding
"walk dog" at time 20 and completing the latter at time 30. -/
def sampleDB : DB :=
  ⟨[⟨1, "buy milk", false, 10, 10⟩, ⟨2, "walk dog", true, 20, 30⟩], 2,
    [⟨1, 1, "buy milk", "add", 10⟩, ⟨2, 2, "walk dog", "add", 20⟩,
      ⟨3, 2, "walk dog", "complete", 30⟩], 3⟩

/-- An environment in which every statement on the tasks table executes and
every INSERT into the history table fails. -/
def Env.historyDown (now : Time) : Env := ⟨now, false, false, fun _ => true⟩

/-- An environment at time 40 in which every statement executes except the
first call of `addHistory`. -/
def Env.firstHistoryFails : Env := ⟨40, false, false, fun k => decide (k = 0)⟩

/-- The database after a task is added at instant 30, when the local zone is
60 ahead of UTC, and completed at instant 50, when the local zone is at UTC
(the clocks were put back by 60 in between, as at the end of summer time). -/
def fallBackDB : DB :=
  run initDB [(⟨⟨30, 60⟩, false, false, fun _ => false⟩, Request.addTask (some "buy milk")),
    (⟨⟨50, 0⟩, false, false, fun _ => false⟩, Request.toggleTask 1)]

/-! ## Basic facts about the statements -/

theorem addHistory_tasks (db : DB) (fails : Bool) (taskID : Int) (taskText action : String)
    (createdAt : Time) :
    (addHistory db fails taskID taskText action createdAt).2.tasks = db.tasks ∧
      (addHistory db fails taskID taskText action createdAt).2.taskSeq = db.taskSeq := by
  unfold addHistory
  cases fails <;> simp

theorem addHistory_ok (db : DB) (taskID : Int) (taskText action : String) (createdAt : Time) :
    addHistory db false taskID taskText action createdAt =
      ((db.historySeq + 1, false),
        { db with
          history := db.history ++ [⟨db.historySeq + 1, taskID, taskText, action, createdAt⟩]
          historySeq := db.historySeq + 1 }) := by
  simp [addHistory]

theorem addHistory_failed (db : DB) (taskID : Int) (taskText action : String) (createdAt : Time) :
    addHistory db true taskID taskText action createdAt = ((0, true), db) := by
  simp [addHistory]

theorem selectTaskById_some {rows : List Task} {id : Int} {t : Task}
    (h : selectTaskById rows id = some t) : t ∈ rows ∧ t.ID = id := by
  unfold selectTaskById at h
  exact ⟨List.mem_of_find?_eq_some h, by simpa using List.find?_some h⟩

theorem selectTaskById_none {rows : List Task} {id : Int}
    (h : id ∉ rows.map (fun t => t.ID)) : selectTaskById rows id = none := by
  unfold selectTaskById
  rw [List.find?_eq_none]
  intro t ht
  simp only [decide_eq_true_eq]
  intro heq
  exact h (List.mem_map.mpr ⟨t, ht, heq⟩)

theorem selectTaskById_isSome {db : DB} {id : Int}
    (h : id ∈ taskIds db) : ∃ t, selectTaskById db.tasks id = some t := by
  cases hsel : selectTaskById db.tasks id with
  | some t => exact ⟨t, rfl⟩
  | none =>
    exfalso
    unfold selectTaskById at hsel
    rw [List.find?_eq_none] at hsel
    obtain ⟨t, ht, heq⟩ := List.mem_map.mp h
    exact hsel t ht (by simpa using heq)

theorem not_mem_deleteTaskById (rows : List Task) (id : Int) :
    id ∉ (deleteTaskById rows id).map (fun t => t.ID) := by
  intro h
  obtain ⟨t, ht, heq⟩ := List.mem_map.mp h
  unfold deleteTaskById at ht
  have := (List.mem_filter.mp ht).2
  simp [heq] at this

theorem addDeleteHistory_tasks (e : Env) (now : Time) (ts : List Task) :
    ∀ (k : Nat) (db : DB),
      (addDeleteHistory e now ts k db).2.tasks = db.tasks ∧
        (addDeleteHistory e now ts k db).2.taskSeq = db.taskSeq := by
  induction ts with
  | nil => intro k db; simp [addDeleteHistory]
  | cons t rest ih =>
    intro k db
    simp only [addDeleteHistory]
    have h1 := ih (k + 1) (addHistory db (e.historyFails k) t.ID t.Text "delete" now).2
    have h2 := addHistory_tasks db (e.historyFails k) t.ID t.Text "delete" now
    exact ⟨h1.1.trans h2.1, h1.2.trans h2.2⟩

theorem addDeleteHistory_entries (e : Env) (now : Time) (ts : List Task) :
    ∀ (k : Nat) (db : DB),
      (addDeleteHistory e now ts k db).1.map
          (fun h => (h.TaskID, h.TaskText, h.Action, h.CreatedAt)) =
        ts.map (fun t => (t.ID, t.Text, "delete", now)) := by
  induction ts with
  | nil => intro k db; simp [addDeleteHistory]
  | cons t rest ih =>
    intro k db
    simp only [addDeleteHistory, List.map_cons]
    rw [ih]

theorem addDeleteHistory_ok (e : Env) (now : Time) (hok : ∀ k, e.historyFails k = false)
    (ts : List Task) :
    ∀ (k : Nat) (db : DB),
      (addDeleteHistory e now ts k db).2.history =
        db.history ++ (addDeleteHistory e now ts k db).1 := by
  induction ts with
  | nil => intro k db; simp [addDeleteHistory]
  | cons t rest ih =>
    intro k db
    simp only [addDeleteHistory, hok k, addHistory_ok]
    rw [ih]
    simp

theorem addDeleteHistory_stored (e : Env) (now : Time) (ts : List Task) :
    ∀ (k : Nat) (db : DB),
      (addDeleteHistory e now ts k db).2.history =
          db.history ++ (((addDeleteHistory e now ts k db).1.enumFrom k).filter
            (fun p => !e.historyFails p.1)).map Prod.snd ∧
        ∀ p ∈ (addDeleteHistory e now ts k db).1.enumFrom k,
          e.historyFails p.1 = true → p.2.ID = 0 := by
  induction ts with
  | nil => intro k db; simp [addDeleteHistory]
  | cons t rest ih =>
    intro k db
    cases hk : e.historyFails k with
    | true =>
      simp only [addDeleteHistory, hk, addHistory_failed, List.enumFrom_cons]
      have h := ih (k + 1) db
      refine ⟨?_, ?_⟩
      · rw [h.1]
        simp [List.filter_cons, hk]
      · intro p hp hf
        rcases List.mem_cons.mp hp with rfl | hp
        · rfl
        · exact h.2 p hp hf
    | false =>
      simp only [addDeleteHistory, hk, addHistory_ok, List.enumFrom_cons]
      have h := ih (k + 1)
        { db with
          history := db.history ++ [⟨db.historySeq + 1, t.ID, t.Text, "delete", now⟩]
          historySeq := db.historySeq + 1 }
      refine ⟨?_, ?_⟩
      · rw [h.1]
        simp [List.filter_cons, hk]
      · intro p hp hf
        rcases List.mem_cons.mp hp with rfl | hp
        · simp [hk] at hf
        · exact h.2 p hp hf

/-! ## The order of stored timestamps -/

theorem offsetTextLE_total (a b : Int) : offsetTextLE a b ∨ offsetTextLE b a := by
  unfold offsetTextLE
  split_ifs <;> first | omega | simp

theorem offsetTextLE_trans (a b c : Int) (hab : offsetTextLE a b) (hbc : offsetTextLE b c) :
    offsetTextLE a c := by
  unfold offsetTextLE at *
  split_ifs at * <;> omega

theorem Time.textLE_total (a b : Time) : a.textLE b ∨ b.textLE a := by
  unfold Time.textLE
  rcases lt_trichotomy a.wall b.wall with h | h | h
  · exact Or.inl (Or.inl h)
  · rcases offsetTextLE_total a.offset b.offset with ho | ho
    · exact Or.inl (Or.inr ⟨h, ho⟩)
    · exact Or.inr (Or.inr ⟨h.symm, ho⟩)
  · exact Or.inr (Or.inl h)

theorem Time.textLE_trans (a b c : Time) (hab : a.textLE b) (hbc : b.textLE c) :
    a.textLE c := by
  unfold Time.textLE at *
  rcases hab with h1 | ⟨h1, o1⟩ <;> rcases hbc with h2 | ⟨h2, o2⟩
  · exact Or.inl (by omega)
  · exact Or.inl (by omega)
  · exact Or.inl (by omega)
  · exact Or.inr ⟨by omega, offsetTextLE_trans _ _ _ o1 o2⟩

/-- Between two timestamps of the same offset the order of the stored texts
is the chronological order. -/
theorem Time.le_of_textLE (a b : Time) (hoff : a.offset = b.offset) (h : a.textLE b) :
    a ≤ b := by
  show a.instant ≤ b.instant
  unfold Time.textLE Time.wall at h
  rcases h with h | ⟨h, _⟩ <;> omega

/-! ## What each handler does when its statements succeed -/

theorem addTask_ok (db : DB) (e : Env) (text : String) (htext : text ≠ "")
    (hexec : e.execFails = false) :
    addTask db e (some text) =
      (⟨201, .taskAndHistory ⟨db.taskSeq + 1, text, false, e.now, e.now⟩
          ⟨(addHistory (insertTask db text false e.now e.now) (e.historyFails 0)
              (db.taskSeq + 1) text "add" e.now).1.1, db.taskSeq + 1, text, "add", e.now⟩⟩,
        (addHistory (insertTask db text false e.now e.now) (e.historyFails 0)
          (db.taskSeq + 1) text "add" e.now).2) := by
  simp [addTask, bindText, htext, hexec, insertTask]

theorem toggleTask_ok (db : DB) (e : Env) (id : Int) (t : Task)
    (hsel : selectTaskById db.tasks id = some t)
    (hquery : e.queryFails = false) (hexec : e.execFails = false) :
    toggleTask db e id =
      (⟨200, .taskAndHistory { t with Completed := !t.Completed, UpdatedAt := e.now }
          ⟨(addHistory { db with tasks := updateTask db.tasks (!t.Completed) e.now id }
              (e.historyFails 0) t.ID t.Text
              (if t.Completed then "uncomplete" else "complete") e.now).1.1,
            t.ID, t.Text, if t.Completed then "uncomplete" else "complete", e.now⟩⟩,
        (addHistory { db with tasks := updateTask db.tasks (!t.Completed) e.now id }
          (e.historyFails 0) t.ID t.Text
          (if t.Completed then "uncomplete" else "complete") e.now).2) := by
  simp [toggleTask, hsel, hquery, hexec]

theorem toggleTask_not_found (db : DB) (e : Env) (id : Int)
    (hsel : selectTaskById db.tasks id = none) :
    toggleTask db e id = (⟨404, .error (some "Task not found")⟩, db) := by
  unfold toggleTask
  cases e.queryFails <;> simp [hsel]

theorem deleteTask_ok (db : DB) (e : Env) (id : Int) (t : Task)
    (hsel : selectTaskById db.tasks id = some t)
    (hquery : e.queryFails = false) (hexec : e.execFails = false) :
    deleteTask db e id =
      (⟨200, .history
          ⟨(addHistory { db with tasks := deleteTaskById db.tasks id } (e.historyFails 0)
              t.ID t.Text "delete" e.now).1.1, t.ID, t.Text, "delete", e.now⟩⟩,
        (addHistory { db with tasks := deleteTaskById db.tasks id } (e.historyFails 0)
          t.ID t.Text "delete" e.now).2) := by
  simp [deleteTask, hsel, hquery, hexec]

theorem deleteTask_not_found (db : DB) (e : Env) (id : Int)
    (hsel : selectTaskById db.tasks id = none) :
    deleteTask db e id = (⟨404, .error (some "Task not found")⟩, db) := by
  unfold deleteTask
  cases e.queryFails <;> simp [hsel]

theorem bindIDs_accepted (ids : List Int) (h : ∀ i ∈ ids, minInt ≤ i ∧ i ≤ maxInt) :
    bindIDs (some ids) = some ids := by
  have hall : ids.all (fun i => decide (minInt ≤ i ∧ i ≤ maxInt)) = true := by
    rw [List.all_eq_true]
    intro i hi
    exact decide_eq_true (h i hi)
  simp only [bindIDs, hall, if_true]

theorem bindIDs_rejected (ids : List Int) (h : ¬ ∀ i ∈ ids, minInt ≤ i ∧ i ≤ maxInt) :
    bindIDs (some ids) = none := by
  have hall : ¬ ids.all (fun i => decide (minInt ≤ i ∧ i ≤ maxInt)) = true := by
    rw [List.all_eq_true]
    intro hall
    exact h (fun i hi => of_decide_eq_true (hall i hi))
  simp only [bindIDs]
  rw [if_neg hall]

theorem clearCompleted_ok (db : DB) (e : Env) (ids : List Int) (hids : AcceptedIDs ids)
    (hquery : e.queryFails = false) (hexec : e.execFails = false) :
    clearCompleted db e (some ids) =
      (⟨200, .historyEntries
          (addDeleteHistory e e.now (selectTasksIn db.tasks ids) 0
            { db with tasks := deleteTasksIn db.tasks ids }).1⟩,
        (addDeleteHistory e e.now (selectTasksIn db.tasks ids) 0
          { db with tasks := deleteTasksIn db.tasks ids }).2) := by
  obtain ⟨hne, hrange, hlen⟩ := hids
  have hlen2 : ¬ maxVariableNumber < ids.length := by omega
  simp [clearCompleted, bindIDs_accepted ids hrange, hne, hquery, hexec, hlen2]

theorem clearCompleted_too_many (db : DB) (e : Env) (ids : List Int)
    (hrange : ∀ i ∈ ids, minInt ≤ i ∧ i ≤ maxInt) (hlen : maxVariableNumber < ids.length) :
    clearCompleted db e (some ids) = (⟨500, .error none⟩, db) := by
  have hne : ids ≠ [] := by
    intro h
    rw [h] at hlen
    exact absurd hlen (by decide)
  simp [clearCompleted, bindIDs_accepted ids hrange, hne, hlen]

/-- A request of `clearCompleted` that is not answered 200 leaves the database
as it was; this is the case for every body whose id list is not accepted and
whenever the SELECT or the DELETE fails. -/
theorem clearCompleted_refused (db : DB) (e : Env) (body : Option (List Int))
    (h : ∀ ids, body = some ids →
      ¬ AcceptedIDs ids ∨ e.queryFails = true ∨ e.execFails = true) :
    (clearCompleted db e body).2 = db ∧ (clearCompleted db e body).1.status ≠ 200 := by
  rcases body with _ | ids
  · simp [clearCompleted, bindIDs]
  · by_cases hrange : ∀ i ∈ ids, minInt ≤ i ∧ i ≤ maxInt
    · by_cases hne : ids = []
      · subst hne
        simp [clearCompleted, bindIDs]
      · by_cases hlen : maxVariableNumber < ids.length
        · simp [clearCompleted, bindIDs_accepted ids hrange, hne, hlen]
        · rcases h ids rfl with hacc | hq | hx
          · exact absurd ⟨hne, hrange, by omega⟩ hacc
          · simp [clearCompleted, bindIDs_accepted ids hrange, hne, hq]
          · cases hq : e.queryFails <;>
              simp [clearCompleted, bindIDs_accepted ids hrange, hne, hq, hx, hlen]
    · simp [clearCompleted, bindIDs_rejected ids hrange]

/-! ## The tasks table along a run -/

/-- The four ways a request can leave the tasks table: untouched, one row
inserted with the next id, the rows of one id updated, or some rows deleted. -/
theorem handle_tasks_cases (db : DB) (e : Env) (r : Request) :
    ((handle db e r).2.tasks = db.tasks ∧ (handle db e r).2.taskSeq = db.taskSeq) ∨
    (∃ text, (handle db e r).2.tasks =
        db.tasks ++ [⟨db.taskSeq + 1, text, false, e.now, e.now⟩] ∧
      (handle db e r).2.taskSeq = db.taskSeq + 1) ∨
    (∃ id c, (handle db e r).2.tasks = updateTask db.tasks c e.now id ∧
      (handle db e r).2.taskSeq = db.taskSeq) ∨
    (∃ p : Task → Bool, (handle db e r).2.tasks = db.tasks.filter p ∧
      (handle db e r).2.taskSeq = db.taskSeq) := by
  cases r with
  | getTasks => left; simp only [handle, getTasks]; cases e.queryFails <;> simp
  | getHistory => left; simp only [handle, getHistory]; cases e.queryFails <;> simp
  | addTask body =>
    simp only [handle]
    by_cases hx : e.execFails = false
    · rcases body with _ | text
      · left; simp [addTask, bindText]
      · by_cases htext : text = ""
        · left; simp [addTask, bindText, htext]
        · right; left
          refine ⟨text, ?_⟩
          rw [addTask_ok db e text htext hx]
          have h := addHistory_tasks (insertTask db text false e.now e.now) (e.historyFails 0)
            (db.taskSeq + 1) text "add" e.now
          rw [h.1, h.2]
          simp [insertTask]
    · left
      have hx : e.execFails = true := by simpa using hx
      unfold addTask
      split <;> simp [hx]
  | toggleTask id =>
    simp only [handle]
    cases hsel : selectTaskById db.tasks id with
    | none => left; rw [toggleTask_not_found db e id hsel]; simp
    | some t =>
      by_cases hq : e.queryFails = false
      · by_cases hx : e.execFails = false
        · right; right; left
          refine ⟨id, !t.Completed, ?_⟩
          rw [toggleTask_ok db e id t hsel hq hx]
          have h := addHistory_tasks { db with tasks := updateTask db.tasks (!t.Completed) e.now id }
            (e.historyFails 0) t.ID t.Text (if t.Completed then "uncomplete" else "complete") e.now
          rw [h.1, h.2]
          simp
        · left
          have hx : e.execFails = true := by simpa using hx
          simp [toggleTask, hsel, hq, hx]
      · left
        have hq : e.queryFails = true := by simpa using hq
        simp [toggleTask, hq]
  | deleteTask id =>
    simp only [handle]
    cases hsel : selectTaskById db.tasks id with
    | none => left; rw [deleteTask_not_found db e id hsel]; simp
    | some t =>
      by_cases hq : e.queryFails = false
      · by_cases hx : e.execFails = false
        · right; right; right
          refine ⟨fun u => !decide (u.ID = id), ?_⟩
          rw [deleteTask_ok db e id t hsel hq hx]
          have h := addHistory_tasks { db with tasks := deleteTaskById db.tasks id }
            (e.historyFails 0) t.ID t.Text "delete" e.now
          rw [h.1, h.2]
          simp [deleteTaskById]
        · left
          have hx : e.execFails = true := by simpa using hx
          simp [deleteTask, hsel, hq, hx]
      · left
        have hq : e.queryFails = true := by simpa using hq
        simp [deleteTask, hq]
  | clearCompleted body =>
    simp only [handle]
    by_cases hok : ∃ ids, body = some ids ∧ AcceptedIDs ids ∧
        e.queryFails = false ∧ e.execFails = false
    · obtain ⟨ids, rfl, hids, hq, hx⟩ := hok
      right; right; right
      refine ⟨fun u => !decide (u.ID ∈ ids), ?_⟩
      rw [clearCompleted_ok db e ids hids hq hx]
      have h := addDeleteHistory_tasks e e.now (selectTasksIn db.tasks ids) 0
        { db with tasks := deleteTasksIn db.tasks ids }
      rw [h.1, h.2]
      simp [deleteTasksIn]
    · left
      have href := clearCompleted_refused db e body (by
        intro ids hb
        by_contra hcon
        push_neg at hcon
        exact hok ⟨ids, hb, hcon.1, by simpa using hcon.2.1, by simpa using hcon.2.2⟩)
      rw [href.1]
      exact ⟨rfl, rfl⟩

theorem updateTask_ids (rows : List Task) (c : Bool) (now : Time) (id : Int) :
    (updateTask rows c now id).map (fun t => t.ID) = rows.map (fun t => t.ID) := by
  unfold updateTask
  rw [List.map_map]
  apply List.map_congr_left
  intro t _
  by_cases h : t.ID = id <;> simp [h]

theorem handle_taskSeq_mono (db : DB) (e : Env) (r : Request) :
    db.taskSeq ≤ (handle db e r).2.taskSeq := by
  rcases handle_tasks_cases db e r with h | ⟨_, h⟩ | ⟨_, _, h⟩ | ⟨_, h⟩ <;> omega

/-- A row found after a request whose id was already handed out before the
request is a row that was there before it, with the same text and creation time. -/
theorem handle_old_rows (db : DB) (e : Env) (r : Request) (t : Task)
    (ht : t ∈ (handle db e r).2.tasks) (hid : t.ID ≤ db.taskSeq) :
    ∃ u ∈ db.tasks, u.ID = t.ID ∧ u.CreatedAt = t.CreatedAt ∧ u.Text = t.Text := by
  rcases handle_tasks_cases db e r with h | ⟨text, h⟩ | ⟨id, c, h⟩ | ⟨p, h⟩
  · rw [h.1] at ht
    exact ⟨t, ht, rfl, rfl, rfl⟩
  · rw [h.1] at ht
    rcases List.mem_append.mp ht with ht | ht
    · exact ⟨t, ht, rfl, rfl, rfl⟩
    · have : t.ID = db.taskSeq + 1 := by
        have := List.mem_singleton.mp ht
        rw [this]
      omega
  · rw [h.1] at ht
    unfold updateTask at ht
    obtain ⟨u, hu, hut⟩ := List.mem_map.mp ht
    refine ⟨u, hu, ?_⟩
    by_cases hc : u.ID = id
    · simp only [hc, if_true] at hut
      subst hut
      exact ⟨hc, rfl, rfl⟩
    · simp only [hc, if_false] at hut
      subst hut
      exact ⟨rfl, rfl, rfl⟩
  · rw [h.1] at ht
    exact ⟨t, (List.mem_filter.mp ht).1, rfl, rfl, rfl⟩

theorem handle_wf (db : DB) (e : Env) (r : Request) (hwf : db.WF) : (handle db e r).2.WF := by
  unfold DB.WF taskIds at *
  rcases handle_tasks_cases db e r with h | ⟨text, h⟩ | ⟨id, c, h⟩ | ⟨p, h⟩
  · rw [h.1, h.2]; exact hwf
  · rw [h.1, h.2]
    constructor
    · rw [List.map_append, List.pairwise_append]
      refine ⟨hwf.1, by simp, ?_⟩
      intro a ha b hb
      have hb : b = db.taskSeq + 1 := by simpa using hb
      have := hwf.2 a ha
      omega
    · intro i hi
      rw [List.map_append, List.mem_append] at hi
      rcases hi with hi | hi
      · have := hwf.2 i hi
        omega
      · have hi : i = db.taskSeq + 1 := by simpa using hi
        omega
  · rw [h.1, h.2, updateTask_ids]; exact hwf
  · rw [h.1, h.2]
    have hsub : List.Sublist ((db.tasks.filter p).map (fun t => t.ID))
        (db.tasks.map (fun t => t.ID)) := List.Sublist.map _ (List.filter_sublist db.tasks)
    exact ⟨hwf.1.sublist hsub, fun i hi => hwf.2 i (hsub.subset hi)⟩

theorem initDB_wf : initDB.WF := by
  unfold DB.WF taskIds initDB
  simp

theorem run_append (db : DB) (a b : List (Env × Request)) :
    run db (a ++ b) = run (run db a) b := by
  induction a generalizing db with
  | nil => rfl
  | cons c rest ih =>
    obtain ⟨e, r⟩ := c
    simp only [List.cons_append, run]
    exact ih _

theorem run_wf (rs : List (Env × Request)) : ∀ db : DB, db.WF → (run db rs).WF := by
  induction rs with
  | nil => intro db h; exact h
  | cons c rest ih =>
    obtain ⟨e, r⟩ := c
    intro db h
    exact ih _ (handle_wf db e r h)

theorem run_taskSeq_mono (rs : List (Env × Request)) :
    ∀ db : DB, db.taskSeq ≤ (run db rs).taskSeq := by
  induction rs with
  | nil => intro db; exact le_refl _
  | cons c rest ih =>
    obtain ⟨e, r⟩ := c
    intro db
    exact le_trans (handle_taskSeq_mono db e r) (ih _)

theorem run_old_rows (rs : List (Env × Request)) :
    ∀ (db : DB) (t : Task), t ∈ (run db rs).tasks → t.ID ≤ db.taskSeq →
      ∃ u ∈ db.tasks, u.ID = t.ID ∧ u.CreatedAt = t.CreatedAt ∧ u.Text = t.Text := by
  induction rs with
  | nil => intro db t ht _; exact ⟨t, ht, rfl, rfl, rfl⟩
  | cons c rest ih =>
    obtain ⟨e, r⟩ := c
    intro db t ht hid
    obtain ⟨v, hv, hvid, hvc, hvt⟩ :=
      ih (handle db e r).2 t ht (le_trans hid (handle_taskSeq_mono db e r))
    obtain ⟨u, hu, huid, huc, hut⟩ := handle_old_rows db e r v hv (by omega)
    exact ⟨u, hu, huid.trans hvid, huc.trans hvc, hut.trans hvt⟩

/-- In a well-formed table a row is determined by its id. -/
theorem wf_row_unique (db : DB) (hwf : db.WF) (t u : Task) (ht : t ∈ db.tasks)
    (hu : u ∈ db.tasks) (hid : t.ID = u.ID) : t = u := by
  have hnd : (db.tasks.map (fun t => t.ID)).Nodup :=
    hwf.1.imp (fun h => ne_of_lt h)
  exact List.inj_on_of_nodup_map hnd ht hu hid

theorem selectTaskById_updateTask (rows : List Task) (c : Bool) (now : Time) (id : Int) (t : Task)
    (hsel : selectTaskById rows id = some t) :
    selectTaskById (updateTask rows c now id) id =
      some { t with Completed := c, UpdatedAt := now } := by
  induction rows with
  | nil => simp [selectTaskById] at hsel
  | cons u rest ih =>
    unfold selectTaskById updateTask at *
    by_cases hu : u.ID = id
    · simp only [List.find?_cons, hu, decide_True, Option.some.injEq] at hsel
      subst hsel
      simp [List.find?_cons, hu]
    · simp only [List.find?_cons, hu, decide_False] at hsel
      simp only [List.map_cons, hu, if_false, List.find?_cons, decide_False]
      exact ih hsel

theorem updateTask_updateTask (rows : List Task) (c1 c2 : Bool) (n1 n2 : Time) (id : Int) :
    updateTask (updateTask rows c1 n1 id) c2 n2 id = updateTask rows c2 n2 id := by
  unfold updateTask
  rw [List.map_map]
  apply List.map_congr_left
  intro u _
  by_cases hu : u.ID = id <;> simp [hu]

/-! ## The claims -/

/-- C7: a rejected request has no effect.  In every database and environment,
`addTask` with a missing or empty text answers 400, `clearCompleted` with a
missing or empty id list answers 400, and `toggleTask` with an id that no task
has answers 404; each time the database after the request (tasks table and
history table) is the database before it. -/
theorem rejected_requests_have_no_effect (db : DB) (e : Env) (id : Int)
    (hid : id ∉ taskIds db) :
    addTask db e none = (⟨400, .error none⟩, db) ∧
    addTask db e (some "") = (⟨400, .error none⟩, db) ∧
    clearCompleted db e none = (⟨400, .error none⟩, db) ∧
    clearCompleted db e (some []) = (⟨400, .error (some "No task IDs provided")⟩, db) ∧
    toggleTask db e id = (⟨404, .error (some "Task not found")⟩, db) := by
  refine ⟨?_, ?_, ?_, ?_, ?_⟩
  · simp [addTask, bindText]
  · simp [addTask, bindText]
  · simp [clearCompleted, bindIDs]
  · simp [clearCompleted, bindIDs]
  · exact toggleTask_not_found db e id (selectTaskById_none hid)

/-- The rejections on the sample database, with 7 as the unknown id. -/
theorem rejected_requests_have_no_effect_witness :
    (7 : Int) ∉ taskIds sampleDB ∧
    (addTask sampleDB (Env.healthy 40) none = (⟨400, .error none⟩, sampleDB) ∧
    addTask sampleDB (Env.healthy 40) (some "") = (⟨400, .error none⟩, sampleDB) ∧
    clearCompleted sampleDB (Env.healthy 40) none = (⟨400, .error none⟩, sampleDB) ∧
    clearCompleted sampleDB (Env.healthy 40) (some []) =
      (⟨400, .error (some "No task IDs provided")⟩, sampleDB) ∧
    toggleTask sampleDB (Env.healthy 40) 7 =
      (⟨404, .error (some "Task not found")⟩, sampleDB)) :=
  ⟨by decide, rejected_requests_have_no_effect sampleDB (Env.healthy 40) 7 (by decide)⟩

/-- C2: in every well-formed database, `addTask` with a non-empty text (its
INSERT into tasks executing) answers 201 with a task that has the given text,
`completed = false`, `created_at = updated_at` and an id that no task of the
database before the request has; and `getTasks` on the database after the
request (its SELECT executing) answers 200 with a list that contains this task. -/
theorem addTask_creates_listed_task (db : DB) (e e2 : Env) (text : String)
    (hwf : db.WF) (htext : text ≠ "") (hexec : e.execFails = false)
    (hquery : e2.queryFails = false) :
    ∃ task history rows,
      (addTask db e (some text)).1 = ⟨201, .taskAndHistory task history⟩ ∧
      task.Text = text ∧ task.Completed = false ∧ task.CreatedAt = task.UpdatedAt ∧
      (∀ t ∈ db.tasks, t.ID ≠ task.ID) ∧
      (getTasks (addTask db e (some text)).2 e2).1 = ⟨200, .tasks rows⟩ ∧
      task ∈ rows := by
  rw [addTask_ok db e text htext hexec]
  refine ⟨⟨db.taskSeq + 1, text, false, e.now, e.now⟩, _,
    selectTasksNewestFirst (db.tasks ++ [⟨db.taskSeq + 1, text, false, e.now, e.now⟩]),
    rfl, rfl, rfl, rfl, ?_, ?_, ?_⟩
  · intro t ht heq
    have := hwf.2 t.ID (List.mem_map.mpr ⟨t, ht, rfl⟩)
    simp only at heq
    omega
  · simp only [getTasks, hquery, (addHistory_tasks _ _ _ _ _ _).1]
    simp [insertTask]
  · unfold selectTasksNewestFirst
    rw [(List.perm_insertionSort _ _).mem_iff]
    simp

/-- Adding "feed cat" to the sample database and listing the tasks. -/
theorem addTask_creates_listed_task_witness :
    sampleDB.WF ∧ "feed cat" ≠ "" ∧
    ∃ task history rows,
      (addTask sampleDB (Env.healthy 40) (some "feed cat")).1 =
        ⟨201, .taskAndHistory task history⟩ ∧
      task.Text = "feed cat" ∧ task.Completed = false ∧ task.CreatedAt = task.UpdatedAt ∧
      (∀ t ∈ sampleDB.tasks, t.ID ≠ task.ID) ∧
      (getTasks (addTask sampleDB (Env.healthy 40) (some "feed cat")).2 (Env.healthy 41)).1 =
        ⟨200, .tasks rows⟩ ∧
      task ∈ rows :=
  ⟨by decide, by decide,
    addTask_creates_listed_task sampleDB (Env.healthy 40) (Env.healthy 41) "feed cat"
      (by decide) (by decide) rfl rfl⟩

/-- C3: `toggleTask` is an involution on the completed flag.  In a well-formed
database, for an id that a task `t` has, two calls in a row (their SELECT and
UPDATE executing, at any two clock readings) answer 200, the first with the
task with `completed` negated, the second with the task with its original
`completed`; after both calls the tasks table is the table before them in which
only `updated_at` of the task with that id has changed: its id, text,
created_at and completed value, and every other row, are as before. -/
theorem toggleTask_twice (db : DB) (e1 e2 : Env) (id : Int) (t : Task)
    (hwf : db.WF) (hsel : selectTaskById db.tasks id = some t)
    (hq1 : e1.queryFails = false) (hx1 : e1.execFails = false)
    (hq2 : e2.queryFails = false) (hx2 : e2.execFails = false) :
    ∃ history1 history2,
      (toggleTask db e1 id).1 =
        ⟨200, .taskAndHistory { t with Completed := !t.Completed, UpdatedAt := e1.now }
          history1⟩ ∧
      (toggleTask (toggleTask db e1 id).2 e2 id).1 =
        ⟨200, .taskAndHistory { t with UpdatedAt := e2.now } history2⟩ ∧
      (toggleTask (toggleTask db e1 id).2 e2 id).2.tasks =
        db.tasks.map (fun u => if u.ID = id then { u with UpdatedAt := e2.now } else u) := by
  have hsel2 : selectTaskById (toggleTask db e1 id).2.tasks id =
      some { t with Completed := !t.Completed, UpdatedAt := e1.now } := by
    rw [toggleTask_ok db e1 id t hsel hq1 hx1]
    simp only [(addHistory_tasks _ _ _ _ _ _).1]
    exact selectTaskById_updateTask db.tasks (!t.Completed) e1.now id t hsel
  have htasks1 : (toggleTask db e1 id).2.tasks = updateTask db.tasks (!t.Completed) e1.now id := by
    rw [toggleTask_ok db e1 id t hsel hq1 hx1]
    simp only [(addHistory_tasks _ _ _ _ _ _).1]
  have hr1 := toggleTask_ok db e1 id t hsel hq1 hx1
  have hr2 := toggleTask_ok (toggleTask db e1 id).2 e2 id _ hsel2 hq2 hx2
  simp only [Bool.not_not] at hr2
  refine ⟨_, _, congrArg Prod.fst hr1, congrArg Prod.fst hr2, ?_⟩
  · rw [hr2]
    simp only [(addHistory_tasks _ _ _ _ _ _).1, htasks1, updateTask_updateTask]
    unfold updateTask
    apply List.map_congr_left
    intro u hu
    by_cases hc : u.ID = id
    · have hut : u = t :=
        wf_row_unique db hwf u t hu (selectTaskById_some hsel).1
          (hc.trans (selectTaskById_some hsel).2.symm)
      simp [hc, hut]
    · simp [hc]

/-- Toggling task 2 of the sample database at time 40 and again at time 50. -/
theorem toggleTask_twice_witness :
    sampleDB.WF ∧
    selectTaskById sampleDB.tasks 2 = some ⟨2, "walk dog", true, 20, 30⟩ ∧
    ∃ history1 history2,
      (toggleTask sampleDB (Env.healthy 40) 2).1 =
        ⟨200, .taskAndHistory ⟨2, "walk dog", false, 20, 40⟩ history1⟩ ∧
      (toggleTask (toggleTask sampleDB (Env.healthy 40) 2).2 (Env.healthy 50) 2).1 =
        ⟨200, .taskAndHistory ⟨2, "walk dog", true, 20, 50⟩ history2⟩ ∧
      (toggleTask (toggleTask sampleDB (Env.healthy 40) 2).2 (Env.healthy 50) 2).2.tasks =
        sampleDB.tasks.map (fun u => if u.ID = 2 then { u with UpdatedAt := 50 } else u) :=
  ⟨by decide, by decide,
    toggleTask_twice sampleDB (Env.healthy 40) (Env.healthy 50) 2 ⟨2, "walk dog", true, 20, 30⟩
      (by decide) (by decide) rfl rfl rfl rfl⟩

/-- C4, as stated, fails for two kinds of non-empty id lists.  A list of 32767
ids (here 32767 times the id 2) has more elements than one statement may have
parameters: every statement executing, the request is answered 500 and the
database is unchanged.  A list with an id that does not fit an `int` (here
2^63) is refused by the decoder: the request is answered 400 and the database
is unchanged. -/
theorem clearCompleted_refuses_some_lists :
    (List.replicate 32767 (2 : Int) ≠ [] ∧
      clearCompleted sampleDB (Env.healthy 40) (some (List.replicate 32767 2)) =
        (⟨500, .error none⟩, sampleDB)) ∧
    (([2, 9223372036854775808] : List Int) ≠ [] ∧
      clearCompleted sampleDB (Env.healthy 40) (some [2, 9223372036854775808]) =
        (⟨400, .error none⟩, sampleDB)) := by
  have hlen : maxVariableNumber < (List.replicate 32767 (2 : Int)).length := by
    rw [List.length_replicate]
    decide
  have hrange : ∀ i ∈ List.replicate 32767 (2 : Int), minInt ≤ i ∧ i ≤ maxInt := by
    intro i hi
    rw [List.eq_of_mem_replicate hi]
    decide
  refine ⟨⟨?_, clearCompleted_too_many sampleDB (Env.healthy 40) _ hrange hlen⟩,
    by decide, by decide⟩
  intro hnil
  rw [hnil] at hlen
  exact absurd hlen (by decide)

/-- C4, amended: for every database and every accepted id list (not empty,
every id an `int`, at most 32766 ids; ids of no task and duplicates allowed),
`clearCompleted` (its SELECT and DELETE executing) answers 200, leaves in the
tasks table exactly the rows whose id is not in the list, unchanged and in
order, and returns one entry per row whose id is in the list, in table order,
carrying that row's id and text with action "delete"; ids that no row has
contribute nothing and are no error. -/
theorem clearCompleted_deletes_existing (db : DB) (e : Env) (ids : List Int)
    (hids : AcceptedIDs ids) (hquery : e.queryFails = false) (hexec : e.execFails = false) :
    ∃ entries,
      (clearCompleted db e (some ids)).1 = ⟨200, .historyEntries entries⟩ ∧
      (clearCompleted db e (some ids)).2.tasks =
        db.tasks.filter (fun t => decide (t.ID ∉ ids)) ∧
      entries.map (fun h => (h.TaskID, h.TaskText, h.Action)) =
        (db.tasks.filter (fun t => decide (t.ID ∈ ids))).map
          (fun t => (t.ID, t.Text, "delete")) := by
  rw [clearCompleted_ok db e ids hids hquery hexec]
  refine ⟨_, rfl, ?_, ?_⟩
  · simp only [(addDeleteHistory_tasks _ _ _ _ _).1, deleteTasksIn]
    apply List.filter_congr
    intro t _
    simp
  · have h := addDeleteHistory_entries e e.now (selectTasksIn db.tasks ids) 0
      { db with tasks := deleteTasksIn db.tasks ids }
    have h2 := congrArg (List.map (fun q : Int × String × String × Time => (q.1, q.2.1, q.2.2.1))) h
    simpa [List.map_map, Function.comp_def, selectTasksIn] using h2

/-- Clearing the ids 2, 9, 2 on the sample database: 9 is unknown, 2 is repeated. -/
theorem clearCompleted_deletes_existing_witness :
    AcceptedIDs [2, 9, 2] ∧
    ∃ entries,
      (clearCompleted sampleDB (Env.healthy 40) (some [2, 9, 2])).1 =
        ⟨200, .historyEntries entries⟩ ∧
      (clearCompleted sampleDB (Env.healthy 40) (some [2, 9, 2])).2.tasks =
        sampleDB.tasks.filter (fun t => decide (t.ID ∉ ([2, 9, 2] : List Int))) ∧
      entries.map (fun h => (h.TaskID, h.TaskText, h.Action)) =
        (sampleDB.tasks.filter (fun t => decide (t.ID ∈ ([2, 9, 2] : List Int)))).map
          (fun t => (t.ID, t.Text, "delete")) :=
  ⟨by decide,
    clearCompleted_deletes_existing sampleDB (Env.healthy 40) [2, 9, 2] (by decide) rfl rfl⟩

/-- C5: for every database and every id that a task `t` has, `deleteTask`
(its SELECT and DELETE executing) answers 200 and removes the rows of that id
and no other row; afterwards no task has the id, so `toggleTask` and
`deleteTask` on it answer 404 in any environment; and, the history INSERT
executing, the history table grows by exactly one entry, with action "delete",
the id of the deleted task and its text as selected before the deletion. -/
theorem deleteTask_removes_task (db : DB) (e e2 : Env) (id : Int) (t : Task)
    (hsel : selectTaskById db.tasks id = some t)
    (hquery : e.queryFails = false) (hexec : e.execFails = false)
    (hhist : e.historyFails 0 = false) :
    (deleteTask db e id).1.status = 200 ∧
    (deleteTask db e id).2.tasks = db.tasks.filter (fun u => decide (u.ID ≠ id)) ∧
    id ∉ taskIds (deleteTask db e id).2 ∧
    (toggleTask (deleteTask db e id).2 e2 id).1.status = 404 ∧
    (deleteTask (deleteTask db e id).2 e2 id).1.status = 404 ∧
    (deleteTask db e id).2.history =
      db.history ++ [⟨db.historySeq + 1, id, t.Text, "delete", e.now⟩] := by
  have htasks : (deleteTask db e id).2.tasks = deleteTaskById db.tasks id := by
    rw [deleteTask_ok db e id t hsel hquery hexec]
    simp only [(addHistory_tasks _ _ _ _ _ _).1]
  have hgone : id ∉ taskIds (deleteTask db e id).2 := by
    unfold taskIds
    rw [htasks]
    exact not_mem_deleteTaskById db.tasks id
  refine ⟨?_, ?_, hgone, ?_, ?_, ?_⟩
  · rw [deleteTask_ok db e id t hsel hquery hexec]
  · rw [htasks]
    unfold deleteTaskById
    apply List.filter_congr
    intro u _
    simp
  · rw [toggleTask_not_found _ e2 id (selectTaskById_none hgone)]
  · rw [deleteTask_not_found _ e2 id (selectTaskById_none hgone)]
  · rw [deleteTask_ok db e id t hsel hquery hexec, hhist, addHistory_ok]
    simp [(selectTaskById_some hsel).2]

/-- Deleting task 1 of the sample database. -/
theorem deleteTask_removes_task_witness :
    selectTaskById sampleDB.tasks 1 = some ⟨1, "buy milk", false, 10, 10⟩ ∧
    ((deleteTask sampleDB (Env.healthy 40) 1).1.status = 200 ∧
    (deleteTask sampleDB (Env.healthy 40) 1).2.tasks =
      sampleDB.tasks.filter (fun u => decide (u.ID ≠ 1)) ∧
    (1 : Int) ∉ taskIds (deleteTask sampleDB (Env.healthy 40) 1).2 ∧
    (toggleTask (deleteTask sampleDB (Env.healthy 40) 1).2 (Env.healthy 50) 1).1.status = 404 ∧
    (deleteTask (deleteTask sampleDB (Env.healthy 40) 1).2 (Env.healthy 50) 1).1.status = 404 ∧
    (deleteTask sampleDB (Env.healthy 40) 1).2.history =
      sampleDB.history ++ [⟨sampleDB.historySeq + 1, 1, "buy milk", "delete", 40⟩]) :=
  ⟨by decide,
    deleteTask_removes_task sampleDB (Env.healthy 40) (Env.healthy 50) 1
      ⟨1, "buy milk", false, 10, 10⟩ (by decide) rfl rfl rfl⟩

/-- C1: in every database, when no statement of the request fails, the four
mutations below succeed, and every mutation that succeeds
leaves the history table equal to the table before it followed by one new
entry per affected task.  `addTask` with a non-empty text answers 201, and
when it answers 201 one "add" entry with the id of the inserted task and the
given text is appended.  `toggleTask` on the id of a task answers 200, and
when it answers 200 one entry with that id and the text of the task `t` of
that id is appended, labelled "complete" when `t` was not completed (the
toggle makes it completed) and "uncomplete" when it was.  `deleteTask` on the
id of a task answers 200, and when it answers 200 one "delete" entry with that
id and the text of the task is appended.  `clearCompleted` with an accepted id
list answers 200, and when it answers 200 one "delete" entry per row whose id
is in the list is appended, in table order, with that row's id and text.  A
request that is not answered so affects no task and appends nothing: it leaves
the database as it was. -/
theorem history_grows_by_one_entry_per_task (db : DB) (e : Env) (hok : e.NoFault) :
    ((∀ text, text ≠ "" → (addTask db e (some text)).1.status = 201) ∧
      (∀ body, (addTask db e body).1.status ≠ 201 → (addTask db e body).2 = db) ∧
      ∀ body, (addTask db e body).1.status = 201 →
        ∃ text, body = some text ∧
          (addTask db e body).2.tasks =
            db.tasks ++ [⟨db.taskSeq + 1, text, false, e.now, e.now⟩] ∧
          (addTask db e body).2.history =
            db.history ++ [⟨db.historySeq + 1, db.taskSeq + 1, text, "add", e.now⟩]) ∧
    ((∀ id, id ∈ taskIds db → (toggleTask db e id).1.status = 200) ∧
      (∀ id, (toggleTask db e id).1.status ≠ 200 → (toggleTask db e id).2 = db) ∧
      ∀ id, (toggleTask db e id).1.status = 200 →
        ∃ t, selectTaskById db.tasks id = some t ∧
          (toggleTask db e id).2.history =
            db.history ++ [⟨db.historySeq + 1, id, t.Text,
              if t.Completed then "uncomplete" else "complete", e.now⟩]) ∧
    ((∀ id, id ∈ taskIds db → (deleteTask db e id).1.status = 200) ∧
      (∀ id, (deleteTask db e id).1.status ≠ 200 → (deleteTask db e id).2 = db) ∧
      ∀ id, (deleteTask db e id).1.status = 200 →
        ∃ t, selectTaskById db.tasks id = some t ∧
          (deleteTask db e id).2.history =
            db.history ++ [⟨db.historySeq + 1, id, t.Text, "delete", e.now⟩]) ∧
    ((∀ ids, AcceptedIDs ids → (clearCompleted db e (some ids)).1.status = 200) ∧
      (∀ body, (clearCompleted db e body).1.status ≠ 200 →
        (clearCompleted db e body).2 = db) ∧
      ∀ body, (clearCompleted db e body).1.status = 200 →
        ∃ ids entries, body = some ids ∧ ids ≠ [] ∧
          (clearCompleted db e body).2.history = db.history ++ entries ∧
          entries.map (fun h => (h.TaskID, h.TaskText, h.Action, h.CreatedAt)) =
            (db.tasks.filter (fun u => decide (u.ID ∈ ids))).map
              (fun u => (u.ID, u.Text, "delete", e.now))) := by
  obtain ⟨hq, hx, hh⟩ := hok
  refine ⟨⟨?_, ?_, ?_⟩, ⟨?_, ?_, ?_⟩, ⟨?_, ?_, ?_⟩, ⟨?_, ?_, ?_⟩⟩
  · intro text htext
    rw [addTask_ok db e text htext hx]
  · intro body hst
    rcases body with _ | text
    · simp [addTask, bindText]
    · by_cases htext : text = ""
      · simp [addTask, bindText, htext]
      · rw [addTask_ok db e text htext hx] at hst
        exact absurd rfl hst
  · intro body hst
    rcases body with _ | text
    · simp [addTask, bindText] at hst
    · by_cases htext : text = ""
      · simp [addTask, bindText, htext] at hst
      · refine ⟨text, rfl, ?_, ?_⟩
        · rw [addTask_ok db e text htext hx, hh 0, addHistory_ok]
          simp [insertTask]
        · rw [addTask_ok db e text htext hx, hh 0, addHistory_ok]
          simp [insertTask]
  · intro id hid
    obtain ⟨t, ht⟩ := selectTaskById_isSome hid
    rw [toggleTask_ok db e id t ht hq hx]
  · intro id hst
    cases hsel : selectTaskById db.tasks id with
    | none => rw [toggleTask_not_found db e id hsel]
    | some t =>
      rw [toggleTask_ok db e id t hsel hq hx] at hst
      exact absurd rfl hst
  · intro id hst
    cases hsel : selectTaskById db.tasks id with
    | none => rw [toggleTask_not_found db e id hsel] at hst; simp at hst
    | some t =>
      refine ⟨t, rfl, ?_⟩
      rw [toggleTask_ok db e id t hsel hq hx, hh 0, addHistory_ok]
      simp [(selectTaskById_some hsel).2]
  · intro id hid
    obtain ⟨t, ht⟩ := selectTaskById_isSome hid
    rw [deleteTask_ok db e id t ht hq hx]
  · intro id hst
    cases hsel : selectTaskById db.tasks id with
    | none => rw [deleteTask_not_found db e id hsel]
    | some t =>
      rw [deleteTask_ok db e id t hsel hq hx] at hst
      exact absurd rfl hst
  · intro id hst
    cases hsel : selectTaskById db.tasks id with
    | none => rw [deleteTask_not_found db e id hsel] at hst; simp at hst
    | some t =>
      refine ⟨t, rfl, ?_⟩
      rw [deleteTask_ok db e id t hsel hq hx, hh 0, addHistory_ok]
      simp [(selectTaskById_some hsel).2]
  · intro ids hids
    rw [clearCompleted_ok db e ids hids hq hx]
  · intro body hst
    apply (clearCompleted_refused db e body _).1
    intro ids hb
    left
    intro hids
    rw [hb, clearCompleted_ok db e ids hids hq hx] at hst
    exact absurd rfl hst
  · intro body hst
    by_cases hacc : ∃ ids, body = some ids ∧ AcceptedIDs ids
    · obtain ⟨ids, rfl, hids⟩ := hacc
      refine ⟨ids, (addDeleteHistory e e.now (selectTasksIn db.tasks ids) 0
        { db with tasks := deleteTasksIn db.tasks ids }).1, rfl, hids.1, ?_, ?_⟩
      · rw [clearCompleted_ok db e ids hids hq hx]
        exact addDeleteHistory_ok e e.now hh _ 0 _
      · exact addDeleteHistory_entries e e.now (selectTasksIn db.tasks ids) 0 _
    · exfalso
      exact (clearCompleted_refused db e body
        (fun ids hb => Or.inl (fun hids => hacc ⟨ids, hb, hids⟩))).2 hst

/-- The four mutations at time 40, every statement executing: adding and
clearing on the empty database, adding, toggling, deleting and clearing on the
sample database. -/
theorem history_grows_by_one_entry_per_task_witness :
    (Env.healthy 40).NoFault ∧
    ((addTask initDB (Env.healthy 40) (some "feed cat")).1.status = 201 ∧
      (addTask initDB (Env.healthy 40) (some "feed cat")).2.history =
        [⟨1, 1, "feed cat", "add", 40⟩]) ∧
    ((clearCompleted initDB (Env.healthy 40) (some [2, 9])).1.status = 200 ∧
      (clearCompleted initDB (Env.healthy 40) (some [2, 9])).2.history = []) ∧
    ((addTask sampleDB (Env.healthy 40) (some "feed cat")).1.status = 201 ∧
      (addTask sampleDB (Env.healthy 40) (some "feed cat")).2.history =
        sampleDB.history ++ [⟨4, 3, "feed cat", "add", 40⟩]) ∧
    ((toggleTask sampleDB (Env.healthy 40) 2).1.status = 200 ∧
      (toggleTask sampleDB (Env.healthy 40) 2).2.history =
        sampleDB.history ++ [⟨4, 2, "walk dog", "uncomplete", 40⟩]) ∧
    ((deleteTask sampleDB (Env.healthy 40) 1).1.status = 200 ∧
      (deleteTask sampleDB (Env.healthy 40) 1).2.history =
        sampleDB.history ++ [⟨4, 1, "buy milk", "delete", 40⟩]) ∧
    ((clearCompleted sampleDB (Env.healthy 40) (some [2, 9])).1.status = 200 ∧
      (clearCompleted sampleDB (Env.healthy 40) (some [2, 9])).2.history =
        sampleDB.history ++ [⟨4, 2, "walk dog", "delete", 40⟩]) := by
  have hok : (Env.healthy 40).NoFault := ⟨rfl, rfl, fun _ => rfl⟩
  have h0 := history_grows_by_one_entry_per_task initDB (Env.healthy 40) hok
  have h1 := history_grows_by_one_entry_per_task sampleDB (Env.healthy 40) hok
  refine ⟨hok, ⟨h0.1.1 "feed cat" (by decide), by decide⟩,
    ⟨h0.2.2.2.1 [2, 9] (by decide), by decide⟩,
    ⟨h1.1.1 "feed cat" (by decide), by decide⟩,
    ⟨h1.2.1.1 2 (by decide), by decide⟩,
    ⟨h1.2.2.1.1 1 (by decide), by decide⟩,
    ⟨h1.2.2.2.1 [2, 9] (by decide), by decide⟩⟩

/-- C6, as stated, fails: with the history table unwritable, `addTask` on the
sample database gets an error from `addHistory`, keeps the inserted task, and
answers 201, not 500. -/
theorem history_failure_not_reported :
    (addHistory (insertTask sampleDB "feed cat" false 40 40)
        ((Env.historyDown 40).historyFails 0) 3 "feed cat" "add" 40).1 = (0, true) ∧
    (addTask sampleDB (Env.historyDown 40) (some "feed cat")).2.tasks =
      sampleDB.tasks ++ [⟨3, "feed cat", false, 40, 40⟩] ∧
    (addTask sampleDB (Env.historyDown 40) (some "feed cat")).1.status = 201 ∧
    ¬ (addTask sampleDB (Env.historyDown 40) (some "feed cat")).1.status = 500 := by
  decide

/-- C6, amended: in every database, when the statements on the tasks table
execute, a failing history INSERT is not reported.  `addTask` with a non-empty
text, `toggleTask` and `deleteTask` on the id of a task, their one call of
`addHistory` failing, answer with their success response (201, 200, 200) in
which the history entry has id 0; the tasks table keeps the effect of the
mutation and the history table is unchanged.  `clearCompleted` with an
accepted id list answers 200 whichever of its calls of `addHistory` fail, with
one entry per selected row; the tasks table keeps the deletion; the entry of
every failed call has id 0, and the history table grows by exactly the entries
of the calls that did not fail, in order. -/
theorem history_failure_is_swallowed (db : DB) (e : Env)
    (hquery : e.queryFails = false) (hexec : e.execFails = false) :
    (e.historyFails 0 = true → ∀ text, text ≠ "" →
      addTask db e (some text) =
        (⟨201, .taskAndHistory ⟨db.taskSeq + 1, text, false, e.now, e.now⟩
            ⟨0, db.taskSeq + 1, text, "add", e.now⟩⟩,
          insertTask db text false e.now e.now)) ∧
    (e.historyFails 0 = true → ∀ id t, selectTaskById db.tasks id = some t →
      toggleTask db e id =
        (⟨200, .taskAndHistory { t with Completed := !t.Completed, UpdatedAt := e.now }
            ⟨0, t.ID, t.Text, if t.Completed then "uncomplete" else "complete", e.now⟩⟩,
          { db with tasks := updateTask db.tasks (!t.Completed) e.now id })) ∧
    (e.historyFails 0 = true → ∀ id t, selectTaskById db.tasks id = some t →
      deleteTask db e id =
        (⟨200, .history ⟨0, t.ID, t.Text, "delete", e.now⟩⟩,
          { db with tasks := deleteTaskById db.tasks id })) ∧
    (∀ ids, AcceptedIDs ids →
      ∃ entries,
        (clearCompleted db e (some ids)).1 = ⟨200, .historyEntries entries⟩ ∧
        (clearCompleted db e (some ids)).2.tasks = deleteTasksIn db.tasks ids ∧
        entries.map (fun h => (h.TaskID, h.TaskText, h.Action)) =
          (selectTasksIn db.tasks ids).map (fun u => (u.ID, u.Text, "delete")) ∧
        (∀ p ∈ entries.enum, e.historyFails p.1 = true → p.2.ID = 0) ∧
        (clearCompleted db e (some ids)).2.history =
          db.history ++ ((entries.enum.filter (fun p => !e.historyFails p.1)).map Prod.snd)) := by
  refine ⟨?_, ?_, ?_, ?_⟩
  · intro hf text htext
    rw [addTask_ok db e text htext hexec, hf, addHistory_failed]
  · intro hf id t ht
    rw [toggleTask_ok db e id t ht hquery hexec, hf, addHistory_failed]
  · intro hf id t ht
    rw [deleteTask_ok db e id t ht hquery hexec, hf, addHistory_failed]
  · intro ids hids
    rw [clearCompleted_ok db e ids hids hquery hexec]
    have hs := addDeleteHistory_stored e e.now (selectTasksIn db.tasks ids) 0
      { db with tasks := deleteTasksIn db.tasks ids }
    refine ⟨_, rfl, (addDeleteHistory_tasks _ _ _ _ _).1, ?_, hs.2, hs.1⟩
    have h := addDeleteHistory_entries e e.now (selectTasksIn db.tasks ids) 0
      { db with tasks := deleteTasksIn db.tasks ids }
    have h2 := congrArg
      (List.map (fun q : Int × String × String × Time => (q.1, q.2.1, q.2.2.1))) h
    simpa [List.map_map, Function.comp_def] using h2

/-- The mutations at time 40 with failing history INSERTs: adding to the empty
database and adding, toggling and deleting on the sample database with the
history table unwritable, and clearing both tasks of the sample database when
only the first call of `addHistory` fails. -/
theorem history_failure_is_swallowed_witness :
    addTask initDB (Env.historyDown 40) (some "feed cat") =
      (⟨201, .taskAndHistory ⟨1, "feed cat", false, 40, 40⟩ ⟨0, 1, "feed cat", "add", 40⟩⟩,
        insertTask initDB "feed cat" false 40 40) ∧
    addTask sampleDB (Env.historyDown 40) (some "feed cat") =
      (⟨201, .taskAndHistory ⟨3, "feed cat", false, 40, 40⟩ ⟨0, 3, "feed cat", "add", 40⟩⟩,
        insertTask sampleDB "feed cat" false 40 40) ∧
    toggleTask sampleDB (Env.historyDown 40) 2 =
      (⟨200, .taskAndHistory ⟨2, "walk dog", false, 20, 40⟩
          ⟨0, 2, "walk dog", "uncomplete", 40⟩⟩,
        { sampleDB with tasks := updateTask sampleDB.tasks false 40 2 }) ∧
    deleteTask sampleDB (Env.historyDown 40) 1 =
      (⟨200, .history ⟨0, 1, "buy milk", "delete", 40⟩⟩,
        { sampleDB with tasks := deleteTaskById sampleDB.tasks 1 }) ∧
    (clearCompleted sampleDB Env.firstHistoryFails (some [1, 2])).1 =
      ⟨200, .historyEntries
        [⟨0, 1, "buy milk", "delete", 40⟩, ⟨4, 2, "walk dog", "delete", 40⟩]⟩ ∧
    (clearCompleted sampleDB Env.firstHistoryFails (some [1, 2])).2.tasks = [] ∧
    (clearCompleted sampleDB Env.firstHistoryFails (some [1, 2])).2.history =
      sampleDB.history ++ [⟨4, 2, "walk dog", "delete", 40⟩] := by
  have h0 := history_failure_is_swallowed initDB (Env.historyDown 40) rfl rfl
  have h1 := history_failure_is_swallowed sampleDB (Env.historyDown 40) rfl rfl
  have h2 := history_failure_is_swallowed sampleDB Env.firstHistoryFails rfl rfl
  obtain ⟨entries, hresp, htasks, -, -, hhist⟩ := h2.2.2.2 [1, 2] (by decide)
  have hent : entries =
      [⟨0, 1, "buy milk", "delete", 40⟩, ⟨4, 2, "walk dog", "delete", 40⟩] := by
    have hd : (clearCompleted sampleDB Env.firstHistoryFails (some [1, 2])).1 =
        ⟨200, .historyEntries
          [⟨0, 1, "buy milk", "delete", 40⟩, ⟨4, 2, "walk dog", "delete", 40⟩]⟩ := by decide
    rw [hd] at hresp
    simpa using hresp.symm
  subst hent
  refine ⟨h0.1 rfl "feed cat" (by decide), h1.1 rfl "feed cat" (by decide),
    h1.2.1 rfl 2 ⟨2, "walk dog", true, 20, 30⟩ (by decide),
    h1.2.2.1 rfl 1 ⟨1, "buy milk", false, 10, 10⟩ (by decide), hresp, ?_, ?_⟩
  · rw [htasks]; decide
  · rw [hhist]; decide

/-- C8, as stated, fails: in the database where a task was added at instant
30 under offset 60 and completed at instant 50 under offset 0, the stored text
of the older entry (local time 90) is greater than that of the newer entry
(local time 50), so `getHistory` returns the older entry first: the returned
entries are not ordered by `created_at` descending. -/
theorem getHistory_older_first_after_offset_change :
    (getHistory fallBackDB (Env.healthy 60)).1 =
      ⟨200, .historyRows [⟨1, 1, "buy milk", "add", ⟨30, 60⟩⟩,
        ⟨2, 1, "buy milk", "complete", ⟨50, 0⟩⟩]⟩ ∧
    ¬ ([⟨1, 1, "buy milk", "add", ⟨30, 60⟩⟩,
        ⟨2, 1, "buy milk", "complete", ⟨50, 0⟩⟩] : List History).Pairwise
      (fun a b => b.CreatedAt ≤ a.CreatedAt) := by
  decide

/-- C8, amended: for every history table, `getHistory` (its SELECT executing)
answers 200 with at most 50 rows and does not change the database; the
returned rows together with the rows left out are a rearrangement of the
history table, so every returned row is a row of the table; the returned rows
are in descending order of the stored text of `created_at` (local date and
time, then offset); no row left out has a stored `created_at` text greater
than that of a returned row; when the table has at most 50 rows none is left
out; and when all entries of the table carry the same UTC offset, the returned
rows are in descending chronological order of `created_at` and no row left
out is later than a returned row. -/
theorem getHistory_recent_fifty (db : DB) (e : Env) (hquery : e.queryFails = false) :
    ∃ rows rest,
      getHistory db e = (⟨200, .historyRows rows⟩, db) ∧
      rows.length ≤ 50 ∧
      (rows ++ rest).Perm db.history ∧
      rows.Pairwise (fun a b => b.CreatedAt.textLE a.CreatedAt) ∧
      (∀ a ∈ rows, ∀ b ∈ rest, b.CreatedAt.textLE a.CreatedAt) ∧
      (db.history.length ≤ 50 → rest = []) ∧
      ((∀ a ∈ db.history, ∀ b ∈ db.history, a.CreatedAt.offset = b.CreatedAt.offset) →
        rows.Pairwise (fun a b => b.CreatedAt ≤ a.CreatedAt) ∧
        ∀ a ∈ rows, ∀ b ∈ rest, b.CreatedAt ≤ a.CreatedAt) := by
  haveI : IsTotal History (fun a b => b.CreatedAt.textLE a.CreatedAt) :=
    ⟨fun a b => Time.textLE_total b.CreatedAt a.CreatedAt⟩
  haveI : IsTrans History (fun a b => b.CreatedAt.textLE a.CreatedAt) :=
    ⟨fun _ _ _ hab hbc => Time.textLE_trans _ _ _ hbc hab⟩
  have hsorted : (db.history.insertionSort
      (fun a b => b.CreatedAt.textLE a.CreatedAt)).Pairwise
      (fun a b => b.CreatedAt.textLE a.CreatedAt) :=
    List.sorted_insertionSort (fun a b : History => b.CreatedAt.textLE a.CreatedAt) db.history
  have hsplit := List.take_append_drop 50
    (db.history.insertionSort (fun a b => b.CreatedAt.textLE a.CreatedAt))
  have hperm : (selectHistoryRecent db.history ++
      (db.history.insertionSort (fun a b => b.CreatedAt.textLE a.CreatedAt)).drop 50).Perm
      db.history := by
    unfold selectHistoryRecent
    rw [hsplit]
    exact List.perm_insertionSort _ _
  have hrows : (selectHistoryRecent db.history).Pairwise
      (fun a b => b.CreatedAt.textLE a.CreatedAt) :=
    hsorted.sublist (List.take_sublist 50 _)
  have hrest : ∀ a ∈ selectHistoryRecent db.history,
      ∀ b ∈ (db.history.insertionSort (fun a b => b.CreatedAt.textLE a.CreatedAt)).drop 50,
      b.CreatedAt.textLE a.CreatedAt := by
    rw [← hsplit, List.pairwise_append] at hsorted
    exact hsorted.2.2
  refine ⟨selectHistoryRecent db.history,
    (db.history.insertionSort (fun a b => b.CreatedAt.textLE a.CreatedAt)).drop 50,
    ?_, ?_, hperm, hrows, hrest, ?_, ?_⟩
  · simp [getHistory, hquery]
  · exact List.length_take_le 50 _
  · intro hlen
    apply List.drop_eq_nil_of_le
    rw [List.length_insertionSort]
    exact hlen
  · intro hoff
    have hmem : ∀ x, x ∈ selectHistoryRecent db.history ++
        (db.history.insertionSort (fun a b => b.CreatedAt.textLE a.CreatedAt)).drop 50 →
        x ∈ db.history := fun x hx => hperm.subset hx
    constructor
    · apply List.Pairwise.imp_of_mem _ hrows
      intro a b ha hb hab
      exact Time.le_of_textLE _ _
        (hoff b (hmem b (List.mem_append_left _ hb)) a (hmem a (List.mem_append_left _ ha))) hab
    · intro a ha b hb
      exact Time.le_of_textLE _ _
        (hoff b (hmem b (List.mem_append_right _ hb)) a (hmem a (List.mem_append_left _ ha)))
        (hrest a ha b hb)

/-- Reading the history of the sample database, whose entries are all in UTC:
the three entries come back newest first. -/
theorem getHistory_recent_fifty_witness :
    (getHistory sampleDB (Env.healthy 40)).1 =
      ⟨200, .historyRows [⟨3, 2, "walk dog", "complete", 30⟩, ⟨2, 2, "walk dog", "add", 20⟩,
        ⟨1, 1, "buy milk", "add", 10⟩]⟩ ∧
    ∃ rows rest,
      getHistory sampleDB (Env.healthy 40) = (⟨200, .historyRows rows⟩, sampleDB) ∧
      rows.length ≤ 50 ∧
      (rows ++ rest).Perm sampleDB.history ∧
      rows.Pairwise (fun a b => b.CreatedAt.textLE a.CreatedAt) ∧
      (∀ a ∈ rows, ∀ b ∈ rest, b.CreatedAt.textLE a.CreatedAt) ∧
      (sampleDB.history.length ≤ 50 → rest = []) ∧
      ((∀ a ∈ sampleDB.history, ∀ b ∈ sampleDB.history,
          a.CreatedAt.offset = b.CreatedAt.offset) →
        rows.Pairwise (fun a b => b.CreatedAt ≤ a.CreatedAt) ∧
        ∀ a ∈ rows, ∀ b ∈ rest, b.CreatedAt ≤ a.CreatedAt) :=
  ⟨by decide, getHistory_recent_fifty sampleDB (Env.healthy 40) rfl⟩

/-! ## Timestamps and ids along a run -/

/-- Every row found after a request is a row from before it, a row created by
the request with both timestamps equal to the request's clock reading, or a
row from before it whose `updated_at` was set to the clock reading. -/
theorem handle_timestamps (db : DB) (e : Env) (r : Request) (t : Task)
    (ht : t ∈ (handle db e r).2.tasks) :
    t ∈ db.tasks ∨ (t.CreatedAt = e.now ∧ t.UpdatedAt = e.now) ∨
      ∃ u ∈ db.tasks, t.CreatedAt = u.CreatedAt ∧ t.UpdatedAt = e.now := by
  rcases handle_tasks_cases db e r with h | ⟨text, h⟩ | ⟨id, c, h⟩ | ⟨p, h⟩
  · rw [h.1] at ht
    exact Or.inl ht
  · rw [h.1] at ht
    rcases List.mem_append.mp ht with ht | ht
    · exact Or.inl ht
    · have := List.mem_singleton.mp ht
      subst this
      exact Or.inr (Or.inl ⟨rfl, rfl⟩)
  · rw [h.1] at ht
    unfold updateTask at ht
    obtain ⟨u, hu, hut⟩ := List.mem_map.mp ht
    by_cases hc : u.ID = id
    · simp only [hc, if_true] at hut
      subst hut
      exact Or.inr (Or.inr ⟨u, hu, rfl, rfl⟩)
    · simp only [hc, if_false] at hut
      subst hut
      exact Or.inl hu
  · rw [h.1] at ht
    exact Or.inl (List.mem_filter.mp ht).1

theorem run_timestamps (rs : List (Env × Request)) :
    ∀ db : DB,
      (∀ t ∈ db.tasks, t.CreatedAt ≤ t.UpdatedAt ∧ ∀ c ∈ rs, t.CreatedAt ≤ c.1.now) →
      (rs.map (fun c => c.1.now)).Pairwise (fun a b => a ≤ b) →
      ∀ t ∈ (run db rs).tasks, t.CreatedAt ≤ t.UpdatedAt := by
  induction rs with
  | nil => intro db hinv _ t ht; exact (hinv t ht).1
  | cons c rest ih =>
    obtain ⟨e, r⟩ := c
    intro db hinv hclock
    rw [List.map_cons, List.pairwise_cons] at hclock
    apply ih (handle db e r).2 _ hclock.2
    intro t ht
    rcases handle_timestamps db e r t ht with hold | ⟨hc, hu⟩ | ⟨u, hu, hc, hup⟩
    · exact ⟨(hinv t hold).1, fun c hc => (hinv t hold).2 c (List.mem_cons_of_mem _ hc)⟩
    · refine ⟨by rw [hc, hu], fun c hcm => ?_⟩
      have hle : e.now ≤ c.1.now := hclock.1 c.1.now (List.mem_map.mpr ⟨c, hcm, rfl⟩)
      rw [hc]
      exact hle
    · have h1 : u.CreatedAt ≤ e.now := (hinv u hu).2 (e, r) (List.mem_cons_self _ _)
      refine ⟨by rw [hc, hup]; exact h1, fun c hcm => ?_⟩
      rw [hc]
      exact (hinv u hu).2 c (List.mem_cons_of_mem _ hcm)

theorem addTask_response_id (db : DB) (e : Env) (body : Option String) (task : Task)
    (history : History)
    (h : (addTask db e body).1.body = .taskAndHistory task history) :
    task.ID = db.taskSeq + 1 := by
  unfold addTask at h
  split at h
  · simp at h
  · by_cases hx : e.execFails = true
    · simp [hx] at h
    · simp only [hx] at h
      simp only [Bool.false_eq_true, if_false, Body.taskAndHistory.injEq] at h
      rw [← h.1]
      simp [insertTask]

/-- C9, as stated, fails: a task added when the clock reads 10 and toggled
when the clock reads 5 (the wall clock was set back in between) is stored with
`updated_at = 5` and `created_at = 10`. -/
theorem clock_set_back_breaks_updatedAt :
    ¬ ∀ t ∈ (run initDB [(Env.healthy 10, Request.addTask (some "buy milk")),
        (Env.healthy 5, Request.toggleTask 1)]).tasks, t.CreatedAt ≤ t.UpdatedAt := by
  decide

/-- C9, amended: for every sequence of requests served from the empty
database, split anywhere into `pre` and `post`: if the clock readings of the
requests never decrease along the sequence, every task stored at the end has
`updated_at ≥ created_at`; and, whatever the clock does, a task stored after
`pre` and a task stored after `pre ++ post` with the same id have the same
`created_at` (the creation time of a task never changes). -/
theorem updatedAt_ge_createdAt_when_clock_monotone (pre post : List (Env × Request)) :
    (((pre ++ post).map (fun c => c.1.now)).Pairwise (fun a b => a ≤ b) →
      ∀ t ∈ (run initDB (pre ++ post)).tasks, t.CreatedAt ≤ t.UpdatedAt) ∧
    (∀ t ∈ (run initDB pre).tasks, ∀ u ∈ (run initDB (pre ++ post)).tasks,
      u.ID = t.ID → u.CreatedAt = t.CreatedAt) := by
  constructor
  · intro hclock
    apply run_timestamps (pre ++ post) initDB _ hclock
    intro t ht
    simp [initDB] at ht
  · intro t ht u hu hid
    rw [run_append] at hu
    have hwf := run_wf pre initDB initDB_wf
    have hle : t.ID ≤ (run initDB pre).taskSeq :=
      hwf.2 t.ID (List.mem_map.mpr ⟨t, ht, rfl⟩)
    obtain ⟨v, hv, hvid, hvc, _⟩ := run_old_rows post (run initDB pre) u hu (by omega)
    have hvt : v = t := wf_row_unique _ hwf v t hv ht (hvid.trans hid)
    rw [← hvc, hvt]

/-- A task added at time 10 and toggled at time 20. -/
theorem updatedAt_ge_createdAt_when_clock_monotone_witness :
    (([(Env.healthy 10, Request.addTask (some "buy milk"))] ++
        [(Env.healthy 20, Request.toggleTask 1)]).map
      (fun c => c.1.now)).Pairwise (fun a b => a ≤ b) ∧
    (∀ t ∈ (run initDB ([(Env.healthy 10, Request.addTask (some "buy milk"))] ++
        [(Env.healthy 20, Request.toggleTask 1)])).tasks, t.CreatedAt ≤ t.UpdatedAt) ∧
    (∀ t ∈ (run initDB [(Env.healthy 10, Request.addTask (some "buy milk"))]).tasks,
      ∀ u ∈ (run initDB ([(Env.healthy 10, Request.addTask (some "buy milk"))] ++
        [(Env.healthy 20, Request.toggleTask 1)])).tasks,
      u.ID = t.ID → u.CreatedAt = t.CreatedAt) :=
  ⟨by decide,
    (updatedAt_ge_createdAt_when_clock_monotone
      [(Env.healthy 10, Request.addTask (some "buy milk"))]
      [(Env.healthy 20, Request.toggleTask 1)]).1 (by decide),
    (updatedAt_ge_createdAt_when_clock_monotone
      [(Env.healthy 10, Request.addTask (some "buy milk"))]
      [(Env.healthy 20, Request.toggleTask 1)]).2⟩

/-- C10: a task id is never reused.  For every sequence of requests served
from the empty database, in any environments: if some task has id `i` after
the requests `pre` and no task has id `i` after the further requests `mid`
(the task was deleted, by `deleteTask` or `clearCompleted`), then after any
further requests `post` no task has id `i`, and an `addTask` served then, in
any environment and with any body, does not answer with a task of id `i`. -/
theorem deleted_id_is_never_reused (pre mid post : List (Env × Request)) (i : Int)
    (hwas : i ∈ taskIds (run initDB pre))
    (hgone : i ∉ taskIds (run initDB (pre ++ mid))) :
    i ∉ taskIds (run initDB (pre ++ mid ++ post)) ∧
    ∀ (e : Env) (body : Option String) (task : Task) (history : History),
      (addTask (run initDB (pre ++ mid ++ post)) e body).1.body =
        .taskAndHistory task history → task.ID ≠ i := by
  have hwf := run_wf pre initDB initDB_wf
  have h1 : i ≤ (run initDB pre).taskSeq := hwf.2 i hwas
  have h2 : (run initDB pre).taskSeq ≤ (run initDB (pre ++ mid)).taskSeq := by
    rw [run_append]
    exact run_taskSeq_mono mid _
  have h3 : (run initDB (pre ++ mid)).taskSeq ≤ (run initDB (pre ++ mid ++ post)).taskSeq := by
    rw [run_append initDB (pre ++ mid) post]
    exact run_taskSeq_mono post _
  constructor
  · intro hin
    rw [run_append initDB (pre ++ mid) post] at hin
    obtain ⟨t, ht, hti⟩ := List.mem_map.mp hin
    have hti : t.ID = i := hti
    obtain ⟨u, hu, huid, _, _⟩ :=
      run_old_rows post (run initDB (pre ++ mid)) t ht (by omega)
    apply hgone
    exact List.mem_map.mpr ⟨u, hu, huid.trans hti⟩
  · intro e body task history hresp
    have := addTask_response_id _ e body task history hresp
    omega

/-- Task 1 is added, then deleted, then another task is added. -/
theorem deleted_id_is_never_reused_witness :
    (1 : Int) ∈ taskIds (run initDB [(Env.healthy 10, Request.addTask (some "buy milk"))]) ∧
    (1 : Int) ∉ taskIds (run initDB ([(Env.healthy 10, Request.addTask (some "buy milk"))] ++
      [(Env.healthy 20, Request.deleteTask 1)])) ∧
    (1 : Int) ∉ taskIds (run initDB ([(Env.healthy 10, Request.addTask (some "buy milk"))] ++
      [(Env.healthy 20, Request.deleteTask 1)] ++
      [(Env.healthy 30, Request.addTask (some "walk dog"))])) ∧
    ∀ (e : Env) (body : Option String) (task : Task) (history : History),
      (addTask (run initDB ([(Env.healthy 10, Request.addTask (some "buy milk"))] ++
        [(Env.healthy 20, Request.deleteTask 1)] ++
        [(Env.healthy 30, Request.addTask (some "walk dog"))])) e body).1.body =
        .taskAndHistory task history → task.ID ≠ 1 :=
  ⟨by decide, by decide,
    deleted_id_is_never_reused [(Env.healthy 10, Request.addTask (some "buy milk"))]
      [(Env.healthy 20, Request.deleteTask 1)]
      [(Env.healthy 30, Request.addTask (some "walk dog"))] 1 (by decide) (by decide)⟩

end TodoList
